import Mathlib

/-!
Verification development for the subtitle search tool
(`src/subtitle_search.py`).

The Python source is shallowly embedded below.  Decoded file contents and
all other Python strings are modelled as `String` / `List Char`; the
`re`-based SRT block scanner is embedded as an executable recursive
scanner with the exact leftmost / lazy / greedy backtracking semantics of
the source pattern
`(\d{2}:\d{2}:\d{2}[,.]\d{3})\s*-->.*?[\n\r]+(.*?)[\n\r]{2,}`
(compiled with `re.DOTALL`, so `.` also matches line breaks).
Whitespace and case mapping are modelled on the ASCII range, which covers
every character class the source distinguishes.
-/

namespace SubtitleSearch

/-- ASCII whitespace, as matched by Python's `\s` and `str.strip()`. -/
def isSpaceChar (c : Char) : Bool :=
  c == ' ' || c == '\t' || c == '\n' || c == '\r' || c == '\x0b' || c == '\x0c'

/-- Line-break characters of the character class `[\n\r]` in the pattern. -/
def isNLChar (c : Char) : Bool :=
  c == '\n' || c == '\r'

/-- Decimal digit, as matched by `\d` on ASCII input. -/
def isDigitChar (c : Char) : Bool :=
  '0' ≤ c && c ≤ '9'

/-- ASCII lowercasing of one character, modelling `str.lower()`. -/
def lowerChar (c : Char) : Char :=
  if 'A' ≤ c && c ≤ 'Z' then Char.ofNat (c.toNat + 32) else c

/-- `str.lower()` over a whole string. -/
def lowerList (s : List Char) : List Char :=
  s.map lowerChar

/-- `str.strip()`: drop ASCII whitespace from both ends. -/
def stripEnds (s : List Char) : List Char :=
  ((s.dropWhile isSpaceChar).reverse.dropWhile isSpaceChar).reverse

/-- `str.splitlines()`, restricted to the separators `\n`, `\r` and `\r\n`
that can occur in the decoded contents the tool manipulates.  A terminal
separator does not produce a trailing empty line, matching Python. -/
def splitLinesGo : List Char → List Char → List (List Char)
  | [], cur => if cur.isEmpty then [] else [cur.reverse]
  | '\r' :: '\n' :: t, cur => cur.reverse :: splitLinesGo t []
  | '\r' :: t, cur => cur.reverse :: splitLinesGo t []
  | '\n' :: t, cur => cur.reverse :: splitLinesGo t []
  | c :: t, cur => splitLinesGo t (c :: cur)

def splitLines (s : List Char) : List (List Char) :=
  splitLinesGo s []

/-- `' '.join(parts)`. -/
def joinSpace : List (List Char) → List Char
  | [] => []
  | [l] => l
  | l :: ls => l ++ ' ' :: joinSpace ls

/-- Helper for `re.sub(r'<.*?>', '', s)`: after an opening `<`, find the
closing `>` on the same line (`.` does not match `\n`), returning what
follows it. -/
def tagEnd : List Char → Option (List Char)
  | [] => none
  | '>' :: t => some t
  | '\n' :: _ => none
  | _ :: t => tagEnd t

/-- `re.sub(r'<.*?>', '', s)` — leftmost, non-overlapping removal of
markup tags; a `<` with no `>` later on its line is kept verbatim.
`fuel` bounds the scan; it is called with the length of the string. -/
def stripTagsGo : Nat → List Char → List Char
  | 0, s => s
  | _ + 1, [] => []
  | fuel + 1, '<' :: t =>
    match tagEnd t with
    | some rest => stripTagsGo fuel rest
    | none => '<' :: stripTagsGo fuel t
  | fuel + 1, c :: t => c :: stripTagsGo fuel t

def stripTags (s : List Char) : List Char :=
  stripTagsGo s.length s

/-- The per-block text cleanup of `load_srt_file`:
`text_block = match.group(2).strip()`, then
`clean_text = re.sub(r'<.*?>', '', text_block)`, then
`clean_text = ' '.join(line.strip() for line in clean_text.splitlines() if line.strip())`. -/
def cleanBlock (g2 : List Char) : List Char :=
  joinSpace (((splitLines (stripTags (stripEnds g2))).map stripEnds).filter
    (fun l => !l.isEmpty))

/-- The start-of-pattern timestamp `(\d{2}:\d{2}:\d{2}[,.]\d{3})`:
returns the twelve matched characters and the rest of the input. -/
def tsShape : List Char → Option (List Char × List Char)
  | d1 :: d2 :: c1 :: d3 :: d4 :: c2 :: d5 :: d6 :: sp :: m1 :: m2 :: m3 :: rest =>
    if isDigitChar d1 && isDigitChar d2 && c1 == ':' &&
       isDigitChar d3 && isDigitChar d4 && c2 == ':' &&
       isDigitChar d5 && isDigitChar d6 && (sp == ',' || sp == '.') &&
       isDigitChar m1 && isDigitChar m2 && isDigitChar m3 then
      some ([d1, d2, c1, d3, d4, c2, d5, d6, sp, m1, m2, m3], rest)
    else none
  | _ => none

/-- `start_time = match.group(1).replace('.', ',')`. -/
def normalizeTs (ts : List Char) : List Char :=
  ts.map (fun c => if c == '.' then ',' else c)

/-- Length of the leading run of `[\n\r]` characters. -/
def nlRunLen (s : List Char) : Nat :=
  (s.takeWhile isNLChar).length

/-- The lazy group `(.*?)` followed by the greedy terminator `[\n\r]{2,}`:
the shortest prefix of `s` that is followed by a run of at least two
line-break characters; the full (greedy) run is consumed.  Returns the
group and the input remaining after the match. -/
def findG2 (fuel : Nat) (s : List Char) : Option (List Char × List Char) :=
  match fuel with
  | 0 => none
  | fuel + 1 =>
    match s with
    | [] => none
    | c :: t =>
      if nlRunLen (c :: t) ≥ 2 then
        some ([], (c :: t).drop (nlRunLen (c :: t)))
      else
        (findG2 fuel t).map (fun p => (c :: p.1, p.2))

/-- One backtracking attempt of `[\n\r]+(.*?)[\n\r]{2,}` at a fixed start:
the greedy `[\n\r]+` first takes the whole leading run `m`; if no
two-newline terminator exists afterwards, backtracking (down to `m - 2`
when `m ≥ 3`) lets the final two run characters serve as the terminator
with an empty group.  A start that is not a line break fails. -/
def tryTail (s : List Char) : Option (List Char × List Char) :=
  let m := nlRunLen s
  if m == 0 then none
  else
    match findG2 (s.drop m).length (s.drop m) with
    | some p => some p
    | none => if m ≥ 3 then some ([], s.drop m) else none

/-- The lazy gap `.*?` before `[\n\r]+(.*?)[\n\r]{2,}` (with `re.DOTALL`):
try the tail at each successive start position, shortest gap first. -/
def findTail (fuel : Nat) (s : List Char) : Option (List Char × List Char) :=
  match fuel with
  | 0 => none
  | fuel + 1 =>
    match tryTail s with
    | some p => some p
    | none =>
      match s with
      | [] => none
      | _ :: t => findTail fuel t

/-- The literal `-->` after the greedy `\s*` skip. -/
def arrowTail : List Char → Option (List Char)
  | '-' :: '-' :: '>' :: r => some r
  | _ => none

/-- A full-pattern match attempt at the head of `s`: timestamp group,
`\s*`, literal `-->`, then the gap/text-group/terminator tail.  Returns
`(group 1, group 2, input after the match)`. -/
def matchAt (s : List Char) : Option (List Char × List Char × List Char) :=
  match tsShape s with
  | none => none
  | some (ts, r1) =>
    match arrowTail (r1.dropWhile isSpaceChar) with
    | none => none
    | some r2 =>
      match findTail (r2.length + 1) r2 with
      | some (g2, rest) => some (ts, g2, rest)
      | none => none

/-- `re.finditer` over the whole content: non-overlapping matches, each
leftmost; on failure the scan advances one character.  `fuel` is the
content length. -/
def scanBlocks (fuel : Nat) (s : List Char) : List (List Char × List Char) :=
  match fuel with
  | 0 => []
  | fuel + 1 =>
    match matchAt s with
    | some (ts, g2, rest) => (ts, g2) :: scanBlocks fuel rest
    | none =>
      match s with
      | [] => []
      | _ :: t => scanBlocks fuel t

/-- The parsing loop of `load_srt_file`: for every regex match, normalize
the start timestamp to comma form, clean the text block, and keep the
entry only when the cleaned text is non-empty. -/
def parseSRT (content : String) : List (String × String) :=
  (scanBlocks content.data.length content.data).filterMap fun p =>
    let clean := cleanBlock p.2
    if clean.isEmpty then none
    else some ((normalizeTs p.1).asString, clean.asString)

/-- `needle == hay[:len(needle)]`. -/
def headMatches : List Char → List Char → Bool
  | [], _ => true
  | _ :: _, [] => false
  | a :: as, b :: bs => a == b && headMatches as bs

/-- Python's substring containment `needle in hay`. -/
def containsSub (needle : List Char) : List Char → Bool
  | [] => headMatches needle []
  | c :: t => headMatches needle (c :: t) || containsSub needle t

/-- One parsed entry `(start_time, text)` as stored in `subtitle_data`. -/
abbrev Entry := String × String

/-- `self.subtitle_data`: a Python `dict` keyed by filename.  Modelled as
an association list in insertion order (Python dicts iterate in insertion
order, and keys are kept unique by the operations below). -/
abbrev Corpus := List (String × List Entry)

/-- `filename in self.subtitle_data`. -/
def hasKey (c : Corpus) (k : String) : Bool :=
  c.any (fun kv => kv.1 == k)

/-- `self.subtitle_data[filename]`. -/
def lookupC : Corpus → String → Option (List Entry)
  | [], _ => none
  | kv :: t, k => if kv.1 == k then some kv.2 else lookupC t k

/-- `self.subtitle_data[filename] = subtitles`: replace in place when the
key exists (keeping its position, as a Python dict does), else append. -/
def dictInsert (c : Corpus) (k : String) (v : List Entry) : Corpus :=
  if hasKey c k then
    c.map (fun kv => if kv.1 == k then (k, v) else kv)
  else c ++ [(k, v)]

/-- Load failures surfaced by `load_srt_file` (both are `ValueError`s in
the source; the message distinguishes them). -/
inductive LoadError
  | encodingError   -- "无法使用支持的编码解码文件"
  | parseError      -- "未能解析到有效的字幕条目"
deriving DecidableEq, Repr

/-- `load_srt_file`: `decoded = none` models a file none of the supported
encodings could decode.  On success the parsed entries are stored under
the file's name; a file with zero usable entries raises and is not
stored. -/
def load_srt_file (c : Corpus) (filename : String) (decoded : Option String) :
    Except LoadError Corpus :=
  match decoded with
  | none => .error .encodingError
  | some content =>
    match parseSRT content with
    | [] => .error .parseError
    | e :: es => .ok (dictInsert c filename (e :: es))

/-- The loading loop of `select_files`: a file whose name is already
loaded is skipped (only a status message is shown — it is not recorded
as an error); a file that fails to load is recorded in `error_files` and
the loop continues with the remaining files. -/
def select_files (c : Corpus) : List (String × Option String) → Corpus × List String
  | [] => (c, [])
  | (filename, decoded) :: rest =>
    if hasKey c filename then select_files c rest
    else
      match load_srt_file c filename decoded with
      | .ok c' => select_files c' rest
      | .error _ =>
        let p := select_files c rest
        (p.1, filename :: p.2)

/-- One search hit `(filename, start_time, original_text)`. -/
abbrev MatchRecord := String × String × String

/-- The inner loop of `search_task` over one file's entries, appending
each hit to the accumulated `temp_results`. -/
def searchFileLoop (ql : List Char) (filename : String) :
    List Entry → List MatchRecord → List MatchRecord
  | [], acc => acc
  | (start_time, text) :: rest, acc =>
    searchFileLoop ql filename rest
      (if containsSub ql (lowerList text.data) then
        acc ++ [(filename, start_time, text)]
      else acc)

/-- The outer loop of `search_task` over `self.subtitle_data.items()`. -/
def searchFilesLoop (ql : List Char) :
    Corpus → List MatchRecord → List MatchRecord
  | [], acc => acc
  | (filename, subtitles) :: rest, acc =>
    searchFilesLoop ql rest (searchFileLoop ql filename subtitles acc)

/-- `search_task`: `query_lower = query.lower()` is computed once, then
every entry of every file is tested with substring containment. -/
def search_task (c : Corpus) (query : String) : List MatchRecord :=
  searchFilesLoop (lowerList query.data) c []

/-- The declared per-file matches: the entries of one file that contain
the lowered query, in original entry order. -/
def fileMatches (ql : List Char) (f : String × List Entry) : List MatchRecord :=
  f.2.filterMap fun e =>
    if containsSub ql (lowerList e.2.data) then some (f.1, e.1, e.2) else none

/-- Outcome of the `search` entry point: an empty (stripped) query and an
empty corpus are each rejected with a warning dialog before any search
runs; otherwise the structured results are produced. -/
inductive SearchOutcome
  | emptyQuery    -- "请输入搜索关键字"
  | emptyCorpus   -- "请先添加 SRT 文件"
  | results (rs : List MatchRecord)
deriving DecidableEq, Repr

/-- `search`: the query is `self.search_entry.get().strip()`; `if not
query` and `if not self.subtitle_data` each abort with a warning before
any search work happens. -/
def searchOp (c : Corpus) (rawQuery : String) : SearchOutcome :=
  let queryChars := stripEnds rawQuery.data
  if queryChars.isEmpty then .emptyQuery
  else if c.isEmpty then .emptyCorpus
  else .results (search_task c queryChars.asString)

/-- The GUI-owned state the claims touch: the loaded corpus and the
stored result set `self.search_results`. -/
structure AppState where
  subtitle_data : Corpus
  search_results : List MatchRecord
deriving Repr

/-- `search` at the state level: on either rejection the method returns
before touching `self.search_results`; on success the new result list
replaces the old one. -/
def searchApp (st : AppState) (rawQuery : String) : AppState :=
  match searchOp st.subtitle_data rawQuery with
  | .emptyQuery => st
  | .emptyCorpus => st
  | .results rs => { st with search_results := rs }

/-- `del self.subtitle_data[filename]` (guarded by a containment check in
the source; deleting all pairs with the key is the same operation on a
unique-key association list). -/
def removeKey (c : Corpus) (filename : String) : Corpus :=
  c.filter (fun kv => !(kv.1 == filename))

/-- The deletion loop of `delete_selected` over the selected filenames. -/
def deleteLoop : Corpus → List String → Corpus
  | c, [] => c
  | c, filename :: rest => deleteLoop (removeKey c filename) rest

/-- `delete_selected`: an empty selection only shows a warning; a
declined confirmation changes nothing; a confirmed deletion removes the
selected files and then calls `clear_search_results`, which empties
`self.search_results` entirely. -/
def delete_selected (st : AppState) (selected : List String) (confirmed : Bool) :
    AppState :=
  if selected.isEmpty then st
  else if confirmed then
    { subtitle_data := deleteLoop st.subtitle_data selected, search_results := [] }
  else st

/-- `clear_all` (confirmed): `self.subtitle_data.clear()` followed by
`clear_search_results`. -/
def clear_all (_ : AppState) : AppState :=
  { subtitle_data := [], search_results := [] }

/-! ### Translator service -/

/-- The error taxonomy raised by the provider calls and caught by
`translate`: `ConnectionError` / `TimeoutError` from `_make_request`,
and `ValueError`/`KeyError`/`IndexError` from response extraction. -/
inductive TransError
  | connErr (msg : String)
  | timeoutErr (msg : String)
  | formatErr (msg : String)
deriving DecidableEq, Repr

/-- The network: what each provider call would return for a given text.
`translate` is parametric in this oracle, so "no network call" is
expressed as independence from it. -/
structure Net where
  azure : String → String → String → Except TransError String
  googlePaid : String → String → Except TransError String
  deepl : String → String → Except TransError String

/-- The persistent configuration of `TranslatorService`:
`current_service` is `None` or a string (the empty string is also falsy
in the guard `if not self.current_service`). -/
structure Config where
  current_service : Option String
  azure_key : String
  azure_region : String
  google_key : String
  deepl_key : String
deriving Repr

/-- `if not self.current_service`. -/
def serviceFalsy : Option String → Bool
  | none => true
  | some s => s.isEmpty

/-- `if not text or text.isspace()`. -/
def isBlankText (text : String) : Bool :=
  text.isEmpty || text.data.all isSpaceChar

/-- The `except` clauses of `translate`, turning every provider failure
into an inline sentinel string. -/
def renderOutcome : Except TransError String → String
  | .ok s => s
  | .error (.connErr m) => "[翻译网络错误: " ++ m ++ "]"
  | .error (.timeoutErr m) => "[翻译网络错误: " ++ m ++ "]"
  | .error (.formatErr m) => "[翻译服务返回错误: " ++ m ++ "]"

/-- `TranslatorService.translate`: a total function into `String` — every
failure becomes a sentinel display string, never an exception. -/
def translate (cfg : Config) (net : Net) (text : String) : String :=
  if serviceFalsy cfg.current_service then
    "[请先在设置中选择并配置翻译服务]"
  else if isBlankText text then
    "[无需翻译的空文本]"
  else if cfg.current_service == some "Azure" then
    if cfg.azure_key.isEmpty || cfg.azure_region.isEmpty then
      "[Azure Key/Region 未配置]"
    else renderOutcome (net.azure text cfg.azure_key cfg.azure_region)
  else if cfg.current_service == some "Google" then
    if !cfg.google_key.isEmpty then
      renderOutcome (net.googlePaid text cfg.google_key)
    else "[Google API Key 未配置]"
  else if cfg.current_service == some "DeepL" then
    if cfg.deepl_key.isEmpty then "[DeepL Key 未配置]"
    else renderOutcome (net.deepl text cfg.deepl_key)
  else "[未知的翻译服务]"

/-! ### Search-engine lemmas -/

theorem searchFileLoop_eq (ql : List Char) (fn : String) (subs : List Entry)
    (acc : List MatchRecord) :
    searchFileLoop ql fn subs acc = acc ++ fileMatches ql (fn, subs) := by
  induction subs generalizing acc with
  | nil => simp [searchFileLoop, fileMatches]
  | cons e rest ih =>
    obtain ⟨t, txt⟩ := e
    by_cases h : containsSub ql (lowerList txt.data) = true
    · simp only [searchFileLoop, if_pos h, ih, fileMatches, List.filterMap_cons, h,
        if_pos]
      simp [fileMatches]
    · simp only [searchFileLoop, h, if_neg, ih, fileMatches, List.filterMap_cons]
      simp [fileMatches, h]

theorem searchFilesLoop_eq (ql : List Char) (c : Corpus) (acc : List MatchRecord) :
    searchFilesLoop ql c acc = acc ++ c.flatMap (fileMatches ql) := by
  induction c generalizing acc with
  | nil => simp [searchFilesLoop]
  | cons f rest ih =>
    obtain ⟨fn, subs⟩ := f
    simp only [searchFilesLoop]
    rw [ih, searchFileLoop_eq]
    simp [List.flatMap_cons]

theorem search_task_eq (c : Corpus) (q : String) :
    search_task c q = c.flatMap (fileMatches (lowerList q.data)) := by
  simpa using searchFilesLoop_eq (lowerList q.data) c []

theorem fileMatches_fst {ql : List Char} {f : String × List Entry}
    {r : MatchRecord} (h : r ∈ fileMatches ql f) : r.1 = f.1 := by
  simp only [fileMatches, List.mem_filterMap] at h
  obtain ⟨e, _, he⟩ := h
  by_cases hc : containsSub ql (lowerList e.2.data) = true
  · rw [if_pos hc] at he
    cases he
    rfl
  · rw [if_neg hc] at he
    cases he

theorem filter_fileMatches_self (ql : List Char) (fn : String)
    (subs : List Entry) :
    (fileMatches ql (fn, subs)).filter (fun r => r.1 == fn) =
      fileMatches ql (fn, subs) :=
  List.filter_eq_self.mpr fun r hr => by simp [fileMatches_fst hr]

theorem filter_fileMatches_ne {ql : List Char} {f : String × List Entry}
    {fn : String} (h : f.1 ≠ fn) :
    (fileMatches ql f).filter (fun r => r.1 == fn) = [] :=
  List.filter_eq_nil_iff.mpr fun r hr => by
    simp [fileMatches_fst hr, h]

theorem mem_search_task {c : Corpus} {q : String} {r : MatchRecord} :
    r ∈ search_task c q ↔
      ∃ subs, (r.1, subs) ∈ c ∧ (r.2.1, r.2.2) ∈ subs ∧
        containsSub (lowerList q.data) (lowerList r.2.2.data) = true := by
  rw [search_task_eq]
  simp only [List.mem_flatMap]
  constructor
  · rintro ⟨⟨fn, subs⟩, hf, hr⟩
    simp only [fileMatches, List.mem_filterMap] at hr
    obtain ⟨⟨t, txt⟩, he, heq⟩ := hr
    by_cases hc : containsSub (lowerList q.data) (lowerList txt.data) = true
    · rw [if_pos hc] at heq
      cases heq
      exact ⟨subs, hf, he, hc⟩
    · rw [if_neg hc] at heq
      cases heq
  · rintro ⟨subs, hc, he, hcon⟩
    refine ⟨(r.1, subs), hc, ?_⟩
    simp only [fileMatches, List.mem_filterMap]
    exact ⟨(r.2.1, r.2.2), he, by simp [hcon]⟩

/-- C8: search is case-insensitive — `search(corpus, "HELLO")` and
`search(corpus, "hello")` agree on every corpus, and a record is in the
result of `search_task` exactly when its entry's lowercased text contains
the lowercased query as a substring (plain containment: no tokenization,
no regex). -/
theorem search_case_insensitivity :
    (∀ c : Corpus, searchOp c "HELLO" = searchOp c "hello") ∧
    (∀ (c : Corpus) (q : String) (r : MatchRecord),
      r ∈ search_task c q ↔
        ∃ subs, (r.1, subs) ∈ c ∧ (r.2.1, r.2.2) ∈ subs ∧
          containsSub (lowerList q.data) (lowerList r.2.2.data) = true) := by
  constructor
  · intro c
    cases c with
    | nil => rfl
    | cons f rest =>
      have h1 : searchOp (f :: rest) "HELLO" =
          .results (search_task (f :: rest) "HELLO") := rfl
      have h2 : searchOp (f :: rest) "hello" =
          .results (search_task (f :: rest) "hello") := rfl
      have hq : lowerList ("HELLO".data) = lowerList ("hello".data) := by decide
      rw [h1, h2, search_task_eq, search_task_eq, hq]
  · intro c q r
    exact mem_search_task

/-- Strict lexical order on identifiers (character lists), used to state
what "ascending lexical order" would require of the result sequence. -/
def lexLt : List Char → List Char → Bool
  | [], [] => false
  | [], _ :: _ => true
  | _ :: _, [] => false
  | a :: as, b :: bs => a < b || (a == b && lexLt as bs)

/-- C1 (counterexample): loading `b.srt` before `a.srt` and searching
produces the `b.srt` records before the `a.srt` records, although
`a.srt` is lexically smaller — the result order follows corpus insertion
order, not ascending identifier order. -/
theorem search_order_counterexample :
    search_task
      (select_files []
        [("b.srt", some "00:00:01,000 --> 00:00:02,000\nhello B\n\n"),
         ("a.srt", some "00:00:01,000 --> 00:00:02,000\nhello A\n\n")]).1
      "hello" =
      [("b.srt", "00:00:01,000", "hello B"),
       ("a.srt", "00:00:01,000", "hello A")] ∧
    lexLt "a.srt".data "b.srt".data = true := by
  constructor
  · rfl
  · decide

/-- C1 (amended): the records produced by `search_task` are the
concatenation, in corpus insertion order, of each file's matching entries
in their original entry order; consequently, when file identifiers are
distinct, restricting the results to one loaded file yields exactly that
file's in-order matches (results are grouped by file, in insertion
order). -/
theorem search_order :
    (∀ (c : Corpus) (q : String),
      search_task c q = c.flatMap (fileMatches (lowerList q.data))) ∧
    (∀ (c : Corpus) (q : String) (fn : String) (subs : List Entry),
      (c.map Prod.fst).Nodup → (fn, subs) ∈ c →
      (search_task c q).filter (fun r => r.1 == fn) =
        fileMatches (lowerList q.data) (fn, subs)) := by
  constructor
  · exact search_task_eq
  · intro c q fn subs hnd hmem
    rw [search_task_eq, List.filter_flatMap]
    induction c with
    | nil => cases hmem
    | cons f rest ih =>
      obtain ⟨fn', subs'⟩ := f
      rw [List.flatMap_cons]
      rw [List.map_cons] at hnd
      have hnd2 := List.nodup_cons.mp hnd
      rcases List.mem_cons.mp hmem with heq | hmem'
      · cases heq
        have hnotin : fn ∉ rest.map Prod.fst := hnd2.1
        rw [filter_fileMatches_self]
        have htail : (rest.flatMap fun a =>
            List.filter (fun r => r.1 == fn) (fileMatches (lowerList q.data) a)) = [] := by
          apply List.flatMap_eq_nil_iff.mpr
          intro f' hf'
          apply filter_fileMatches_ne
          intro hfeq
          exact hnotin (hfeq ▸ List.mem_map_of_mem Prod.fst hf')
        rw [htail, List.append_nil]
      · have hnd' : (rest.map Prod.fst).Nodup := hnd2.2
        have hne : fn' ≠ fn := by
          intro hfeq
          have : fn ∈ rest.map Prod.fst := by
            simpa using List.mem_map_of_mem Prod.fst hmem'
          exact hnd2.1 (hfeq ▸ this)
        rw [filter_fileMatches_ne hne, List.nil_append]
        exact ih hnd' hmem'

/-- Witness for `search_order`. -/
theorem search_order_witness :
    (search_task
        [("a.srt", [("00:00:01,000", "hello a")]),
         ("b.srt", [("00:00:02,000", "hello b")])] "hello").filter
        (fun r => r.1 == "b.srt") =
      fileMatches (lowerList "hello".data)
        ("b.srt", [("00:00:02,000", "hello b")]) :=
  search_order.2
    [("a.srt", [("00:00:01,000", "hello a")]),
     ("b.srt", [("00:00:02,000", "hello b")])] "hello" "b.srt"
    [("00:00:02,000", "hello b")] (by decide) (by decide)

/-! ### Shape of parsed entries -/

/-- The raw shape matched by group 1: `\d{2}:\d{2}:\d{2}[,.]\d{3}`. -/
def tsRawB (s : List Char) : Bool :=
  match s with
  | [d1, d2, c1, d3, d4, c2, d5, d6, sp, m1, m2, m3] =>
    isDigitChar d1 && isDigitChar d2 && c1 == ':' &&
    isDigitChar d3 && isDigitChar d4 && c2 == ':' &&
    isDigitChar d5 && isDigitChar d6 && (sp == ',' || sp == '.') &&
    isDigitChar m1 && isDigitChar m2 && isDigitChar m3
  | _ => false

/-- The normalized timestamp shape `HH:MM:SS,mmm` the spec requires of
stored entries: like `tsRawB` but with the comma separator mandatory. -/
def tsCommaB (s : List Char) : Bool :=
  match s with
  | [d1, d2, c1, d3, d4, c2, d5, d6, sp, m1, m2, m3] =>
    isDigitChar d1 && isDigitChar d2 && c1 == ':' &&
    isDigitChar d3 && isDigitChar d4 && c2 == ':' &&
    isDigitChar d5 && isDigitChar d6 && sp == ',' &&
    isDigitChar m1 && isDigitChar m2 && isDigitChar m3
  | _ => false

/-- The per-block cleanup, lifted to `String`. -/
def cleanBlockS (raw : String) : String :=
  (cleanBlock raw.data).asString

theorem digit_ne_dot {d : Char} (h : isDigitChar d = true) : (d == '.') = false := by
  cases hc : d == '.'
  · rfl
  · rw [eq_of_beq hc] at h
    exact absurd h (by decide)

theorem tsShape_rawB {s ts r} (h : tsShape s = some (ts, r)) : tsRawB ts = true := by
  unfold tsShape at h
  split at h
  · split at h
    · rename_i hcond
      cases h
      simpa [tsRawB] using hcond
    · cases h
  · cases h

theorem normChar_digit {d : Char} (h : isDigitChar d = true) :
    (if d == '.' then ',' else d) = d := by
  rw [digit_ne_dot h]
  rfl

theorem tsRawB_normalize {ts : List Char} (h : tsRawB ts = true) :
    tsCommaB (normalizeTs ts) = true := by
  unfold tsRawB at h
  split at h
  · rename_i d1 d2 c1 d3 d4 c2 d5 d6 sp m1 m2 m3
    simp only [Bool.and_eq_true] at h
    obtain ⟨⟨⟨⟨⟨⟨⟨⟨⟨⟨⟨h1, h2⟩, h3⟩, h4⟩, h5⟩, h6⟩, h7⟩, h8⟩, h9⟩, h10⟩, h11⟩, h12⟩ := h
    rw [eq_of_beq h3, eq_of_beq h6]
    simp only [normalizeTs, List.map_cons, List.map_nil]
    rw [normChar_digit h1, normChar_digit h2, normChar_digit h4, normChar_digit h5,
      normChar_digit h7, normChar_digit h8, normChar_digit h10, normChar_digit h11,
      normChar_digit h12]
    have hcolon : (if (':' : Char) == '.' then ',' else ':') = ':' := by decide
    rw [hcolon]
    have h9' : (sp == ',') = true ∨ (sp == '.') = true := by
      cases hx : sp == ','
      · right
        cases hy : sp == '.'
        · rw [hx, hy] at h9
          cases h9
        · rfl
      · left
        rfl
    rcases h9' with hsp | hsp
    · rw [eq_of_beq hsp]
      have hcomma : (if (',' : Char) == '.' then ',' else ',') = ',' := by decide
      rw [hcomma]
      simp [tsCommaB, h1, h2, h4, h5, h7, h8, h10, h11, h12]
    · rw [eq_of_beq hsp]
      have hdot : (if ('.' : Char) == '.' then ',' else '.') = ',' := by decide
      rw [hdot]
      simp [tsCommaB, h1, h2, h4, h5, h7, h8, h10, h11, h12]
  · cases h

theorem matchAt_rawB {s ts g2 rest} (h : matchAt s = some (ts, g2, rest)) :
    tsRawB ts = true := by
  unfold matchAt at h
  split at h
  · cases h
  · rename_i ts' r1 hts
    split at h
    · cases h
    · split at h
      · cases h
        exact tsShape_rawB hts
      · cases h

theorem scanBlocks_succ (fuel : Nat) (s : List Char) :
    scanBlocks (fuel + 1) s =
      match matchAt s with
      | some (ts, g2, rest) => (ts, g2) :: scanBlocks fuel rest
      | none =>
        match s with
        | [] => []
        | _ :: t => scanBlocks fuel t := rfl

theorem scanBlocks_rawB {fuel : Nat} {s : List Char} {p : List Char × List Char}
    (h : p ∈ scanBlocks fuel s) : tsRawB p.1 = true := by
  induction fuel generalizing s with
  | zero => cases h
  | succ fuel ih =>
    rw [scanBlocks_succ] at h
    split at h
    · rename_i ts g2 rest hm
      rcases List.mem_cons.mp h with heq | hmem
      · cases heq
        exact matchAt_rawB hm
      · exact ih hmem
    · split at h
      · cases h
      · exact ih h

theorem parseSRT_entry {content : String} {e : Entry} (h : e ∈ parseSRT content) :
    tsCommaB e.1.data = true ∧ e.2 ≠ "" ∧ ∃ raw : String, e.2 = cleanBlockS raw := by
  unfold parseSRT at h
  rw [List.mem_filterMap] at h
  obtain ⟨p, hp, hpe⟩ := h
  by_cases hcl : (cleanBlock p.2).isEmpty = true
  · rw [if_pos hcl] at hpe
    cases hpe
  · rw [if_neg hcl] at hpe
    cases hpe
    refine ⟨?_, ?_, ?_⟩
    · exact tsRawB_normalize (scanBlocks_rawB hp)
    · intro hempty
      have hdata : (cleanBlock p.2) = ([] : List Char) := congrArg String.data hempty
      rw [hdata] at hcl
      exact hcl rfl
    · exact ⟨p.2.asString, rfl⟩

/-- C2: every parsed entry carries a comma-normalized `HH:MM:SS,mmm`
start timestamp and a non-empty text produced by the block cleanup
(per-line trimming, single-space joining, tag stripping); and the
end-to-end example: loading the single-block file and searching for
"hello" yields exactly one match record. -/
theorem parse_normalization :
    (∀ (content : String) (e : Entry), e ∈ parseSRT content →
      tsCommaB e.1.data = true ∧ e.2 ≠ "" ∧ ∃ raw : String, e.2 = cleanBlockS raw) ∧
    (select_files [] [("a.srt", some "00:00:01,000 --> 00:00:02,000\nHello there\n\n")] =
      ([("a.srt", [("00:00:01,000", "Hello there")])], []) ∧
     searchOp [("a.srt", [("00:00:01,000", "Hello there")])] "hello" =
       .results [("a.srt", "00:00:01,000", "Hello there")]) := by
  refine ⟨fun _ _ h => parseSRT_entry h, ?_, ?_⟩
  · rfl
  · rfl

/-- Witness for `parse_normalization` at the example block. -/
theorem parse_normalization_witness :
    tsCommaB ("00:00:01,000" : String).data = true ∧
    ("Hello there" : String) ≠ "" ∧
    ∃ raw : String, ("Hello there" : String) = cleanBlockS raw :=
  parse_normalization.1 "00:00:01,000 --> 00:00:02,000\nHello there\n\n"
    ("00:00:01,000", "Hello there") (by decide)

/-! ### Trailing blocks without a blank-line terminator -/

/-- No two adjacent characters of `s` are both line breaks — in
particular, `s` contains no blank line and ends with at most one
newline. -/
def noDoubleNL : List Char → Bool
  | [] => true
  | [_] => true
  | a :: b :: t => !(isNLChar a && isNLChar b) && noDoubleNL (b :: t)

theorem noDoubleNL_tail {c : Char} {t : List Char}
    (h : noDoubleNL (c :: t) = true) : noDoubleNL t = true := by
  cases t with
  | nil => rfl
  | cons b u => exact (Bool.and_eq_true .. ▸ h).2

theorem noDoubleNL_drop {s : List Char} (n : Nat) (h : noDoubleNL s = true) :
    noDoubleNL (s.drop n) = true := by
  induction n generalizing s with
  | zero => exact h
  | succ n ih =>
    cases s with
    | nil => exact h
    | cons c t => exact ih (noDoubleNL_tail h)

theorem noDoubleNL_dropWhile (p : Char → Bool) {s : List Char}
    (h : noDoubleNL s = true) : noDoubleNL (s.dropWhile p) = true := by
  induction s with
  | nil => exact h
  | cons c t ih =>
    rw [List.dropWhile_cons]
    by_cases hp : p c = true
    · rw [if_pos hp]
      exact ih (noDoubleNL_tail h)
    · rw [if_neg hp]
      exact h

theorem nlRunLen_le_one {s : List Char} (h : noDoubleNL s = true) :
    nlRunLen s ≤ 1 := by
  cases s with
  | nil => simp [nlRunLen]
  | cons a t =>
    cases t with
    | nil =>
      by_cases ha : isNLChar a = true <;>
        simp [nlRunLen, List.takeWhile, ha]
    | cons b u =>
      by_cases ha : isNLChar a = true
      · have hb : isNLChar b = false := by
          have := (Bool.and_eq_true .. ▸ h).1
          rw [ha] at this
          cases hx : isNLChar b
          · rfl
          · rw [hx] at this
            cases this
        simp [nlRunLen, List.takeWhile, ha, hb]
      · simp [nlRunLen, List.takeWhile, ha]

theorem findG2_none {fuel : Nat} {s : List Char} (h : noDoubleNL s = true) :
    findG2 fuel s = none := by
  induction fuel generalizing s with
  | zero => rfl
  | succ fuel ih =>
    cases s with
    | nil => rfl
    | cons c t =>
      have e : findG2 (fuel + 1) (c :: t) =
          if nlRunLen (c :: t) ≥ 2 then
            some ([], (c :: t).drop (nlRunLen (c :: t)))
          else (findG2 fuel t).map (fun p => (c :: p.1, p.2)) := rfl
      have hrun : ¬ nlRunLen (c :: t) ≥ 2 := by
        have := nlRunLen_le_one h
        omega
      rw [e, if_neg hrun, ih (noDoubleNL_tail h)]
      rfl

theorem tryTail_none {s : List Char} (h : noDoubleNL s = true) :
    tryTail s = none := by
  have hm := nlRunLen_le_one h
  have hdrop : noDoubleNL (s.drop (nlRunLen s)) = true := noDoubleNL_drop _ h
  have hg : findG2 (s.drop (nlRunLen s)).length (s.drop (nlRunLen s)) = none :=
    findG2_none hdrop
  have e : tryTail s =
      if nlRunLen s == 0 then none
      else
        match findG2 (s.drop (nlRunLen s)).length (s.drop (nlRunLen s)) with
        | some p => some p
        | none =>
          if nlRunLen s ≥ 3 then some ([], s.drop (nlRunLen s)) else none := rfl
  rw [e, hg]
  by_cases h0 : nlRunLen s = 0
  · simp [h0]
  · have h1 : nlRunLen s = 1 := by omega
    rw [h1]
    norm_num

theorem findTail_succ (fuel : Nat) (s : List Char) :
    findTail (fuel + 1) s =
      match tryTail s with
      | some p => some p
      | none =>
        match s with
        | [] => none
        | _ :: t => findTail fuel t := rfl

theorem findTail_none {fuel : Nat} {s : List Char} (h : noDoubleNL s = true) :
    findTail fuel s = none := by
  induction fuel generalizing s with
  | zero => rfl
  | succ fuel ih =>
    rw [findTail_succ, tryTail_none h]
    cases s with
    | nil => rfl
    | cons c t => exact ih (noDoubleNL_tail h)

theorem tsShape_rest_drop {s ts r} (h : tsShape s = some (ts, r)) :
    r = s.drop 12 := by
  unfold tsShape at h
  split at h
  · split at h
    · cases h
      rfl
    · cases h
  · cases h

theorem matchAt_none {s : List Char} (h : noDoubleNL s = true) :
    matchAt s = none := by
  unfold matchAt
  cases hts : tsShape s with
  | none => rfl
  | some p =>
    obtain ⟨ts, r1⟩ := p
    have hr1 : noDoubleNL r1 = true := by
      rw [tsShape_rest_drop hts]
      exact noDoubleNL_drop 12 h
    show (match arrowTail (r1.dropWhile isSpaceChar) with
          | none => none
          | some r2 =>
            match findTail (r2.length + 1) r2 with
            | some (g2, rest) => some (ts, g2, rest)
            | none => none) = none
    cases har : arrowTail (r1.dropWhile isSpaceChar) with
    | none => rfl
    | some r2 =>
      have hr2 : noDoubleNL r2 = true := by
        have hdw : noDoubleNL (r1.dropWhile isSpaceChar) = true :=
          noDoubleNL_dropWhile isSpaceChar hr1
        unfold arrowTail at har
        split at har
        · rename_i r heq
          rw [heq] at hdw
          cases har
          exact noDoubleNL_tail (noDoubleNL_tail (noDoubleNL_tail hdw))
        · cases har
      show (match findTail (r2.length + 1) r2 with
            | some (g2, rest) => some (ts, g2, rest)
            | none => none) = none
      rw [findTail_none hr2]

theorem scanBlocks_noDouble {fuel : Nat} {s : List Char}
    (h : noDoubleNL s = true) : scanBlocks fuel s = [] := by
  induction fuel generalizing s with
  | zero => rfl
  | succ fuel ih =>
    rw [scanBlocks_succ, matchAt_none h]
    cases s with
    | nil => rfl
    | cons c t => exact ih (noDoubleNL_tail h)

/-- C3 (amended): the block pattern requires a terminator of at least two
line-break characters, so content containing no two adjacent line breaks
— in particular a final well-formed block followed by at most one
newline — yields no entries at all: an unterminated trailing block is
dropped, not attempted. -/
theorem trailing_block_requires_blank_line :
    ∀ content : String, noDoubleNL content.data = true → parseSRT content = [] := by
  intro content h
  unfold parseSRT
  rw [scanBlocks_noDouble h]
  rfl

/-- Witness for `trailing_block_requires_blank_line`. -/
theorem trailing_block_requires_blank_line_witness :
    parseSRT "00:00:01,000 --> 00:00:02,000\nHello\n" = [] :=
  trailing_block_requires_blank_line
    "00:00:01,000 --> 00:00:02,000\nHello\n" (by decide)

/-- C3 (counterexample): the final block of
`"00:00:01,000 --> 00:00:02,000\nHello\n"` is well formed — appending
the blank-line terminator makes it parse to one entry — yet without the
blank line the parser extracts nothing. -/
theorem trailing_block_counterexample :
    parseSRT "00:00:01,000 --> 00:00:02,000\nHello\n\n" =
      [("00:00:01,000", "Hello")] ∧
    parseSRT "00:00:01,000 --> 00:00:02,000\nHello\n" = [] := by
  constructor
  · rfl
  · rfl

/-! ### Corpus loading -/

theorem hasKey_append_left {c : Corpus} {k : String} (d : Corpus)
    (h : hasKey c k = true) : hasKey (c ++ d) k = true := by
  unfold hasKey at h ⊢
  rw [List.any_append, h]
  rfl

theorem lookupC_append_left {c : Corpus} {k : String} (d : Corpus)
    (h : hasKey c k = true) : lookupC (c ++ d) k = lookupC c k := by
  induction c with
  | nil => cases h
  | cons kv t ih =>
    by_cases hk : (kv.1 == k) = true
    · simp [lookupC, hk]
    · have hk' : (kv.1 == k) = false := by
        cases hx : kv.1 == k
        · rfl
        · exact absurd hx hk
      have ht : hasKey t k = true := by
        unfold hasKey at h ⊢
        rw [List.any_cons, hk'] at h
        simpa using h
      simp [lookupC, hk', ih ht]

theorem dictInsert_new {c : Corpus} {k : String} {v : List Entry}
    (h : hasKey c k = false) : dictInsert c k v = c ++ [(k, v)] := by
  unfold dictInsert
  rw [h]
  rfl

theorem select_files_lookup :
    ∀ (fs : List (String × Option String)) (c : Corpus) (k : String),
      hasKey c k = true → lookupC (select_files c fs).1 k = lookupC c k := by
  intro fs
  induction fs with
  | nil => intro c k _; rfl
  | cons p rest ih =>
    intro c k h
    obtain ⟨fn, dec⟩ := p
    by_cases hk : hasKey c fn = true
    · have e : select_files c ((fn, dec) :: rest) = select_files c rest := by
        simp [select_files, hk]
      rw [e]
      exact ih c k h
    · have hk' : hasKey c fn = false := by
        cases hx : hasKey c fn
        · rfl
        · exact absurd hx hk
      cases dec with
      | none =>
        have e : (select_files c ((fn, none) :: rest)).1 = (select_files c rest).1 := by
          simp [select_files, hk', load_srt_file]
        rw [e]
        exact ih c k h
      | some content =>
        cases hp : parseSRT content with
        | nil =>
          have e : (select_files c ((fn, some content) :: rest)).1 =
              (select_files c rest).1 := by
            simp [select_files, hk', load_srt_file, hp]
          rw [e]
          exact ih c k h
        | cons en es =>
          have e : select_files c ((fn, some content) :: rest) =
              select_files (c ++ [(fn, en :: es)]) rest := by
            simp [select_files, hk', load_srt_file, hp, dictInsert_new hk']
          rw [e, ih (c ++ [(fn, en :: es)]) k (hasKey_append_left _ h)]
          exact lookupC_append_left _ h

/-- C4 (amended): loading a file whose identifier is already present
leaves the corpus untouched and reports no failure: the attempt is
silently skipped (only a transient status message is shown, and nothing
is appended to the batch's error list); the originally stored entries
survive any later batch unchanged. -/
theorem duplicate_load_skipped :
    (∀ (c : Corpus) (fn : String) (dec : Option String)
        (rest : List (String × Option String)),
      hasKey c fn = true →
      select_files c ((fn, dec) :: rest) = select_files c rest) ∧
    (∀ (fs : List (String × Option String)) (c : Corpus) (k : String),
      hasKey c k = true → lookupC (select_files c fs).1 k = lookupC c k) := by
  constructor
  · intro c fn dec rest h
    simp [select_files, h]
  · exact select_files_lookup

/-- Witness for `duplicate_load_skipped`. -/
theorem duplicate_load_skipped_witness :
    select_files [("a.srt", [("00:00:01,000", "Hello there")])]
        [("a.srt", some "ignored")] =
      select_files [("a.srt", [("00:00:01,000", "Hello there")])] [] ∧
    lookupC (select_files [("a.srt", [("00:00:01,000", "Hello there")])]
        [("b.srt", some "00:00:05,000 --> 00:00:06,000\nBye\n\n")]).1 "a.srt" =
      lookupC [("a.srt", [("00:00:01,000", "Hello there")])] "a.srt" :=
  ⟨duplicate_load_skipped.1 _ "a.srt" (some "ignored") [] (by decide),
   duplicate_load_skipped.2 _ _ "a.srt" (by decide)⟩

/-- C4 (counterexample): loading `a.srt` twice keeps the first load's
entries (never merged or replaced) — but the second attempt surfaces no
error at all: the batch's error list is empty, there is no
`DuplicateError` anywhere in the loading path. -/
theorem duplicate_load_counterexample :
    select_files []
      [("a.srt", some "00:00:01,000 --> 00:00:02,000\nHello there\n\n"),
       ("a.srt", some "00:00:05,000 --> 00:00:06,000\nBye\n\n")] =
      ([("a.srt", [("00:00:01,000", "Hello there")])], []) := by
  rfl

/-- C7: loading a successfully decoded file fails (with the
zero-usable-entries `ValueError`) exactly when parsing yields no
entries; such a failing file leaves the corpus exactly as the rest of
the batch would produce it and only appends its name to the error list —
the remaining files are still processed. -/
theorem parse_failure_contract :
    (∀ (c : Corpus) (fn content : String),
      load_srt_file c fn (some content) = .error .parseError ↔
        parseSRT content = []) ∧
    (∀ (c : Corpus) (fn content : String) (rest : List (String × Option String)),
      parseSRT content = [] → hasKey c fn = false →
      select_files c ((fn, some content) :: rest) =
        ((select_files c rest).1, fn :: (select_files c rest).2)) := by
  constructor
  · intro c fn content
    have e : load_srt_file c fn (some content) =
        match parseSRT content with
        | [] => Except.error LoadError.parseError
        | en :: es => Except.ok (dictInsert c fn (en :: es)) := rfl
    rw [e]
    cases hp : parseSRT content with
    | nil => simp
    | cons en es => simp
  · intro c fn content rest h1 h2
    simp [select_files, h2, load_srt_file, h1]

/-- Witness for `parse_failure_contract`. -/
theorem parse_failure_contract_witness :
    select_files [] [("bad.srt", some "junk"),
        ("a.srt", some "00:00:01,000 --> 00:00:02,000\nHello there\n\n")] =
      ((select_files []
          [("a.srt", some "00:00:01,000 --> 00:00:02,000\nHello there\n\n")]).1,
        "bad.srt" :: (select_files []
          [("a.srt", some "00:00:01,000 --> 00:00:02,000\nHello there\n\n")]).2) :=
  parse_failure_contract.2 [] "bad.srt" "junk" _ (by rfl) (by rfl)

/-! ### Deletion and the stored result set -/

theorem deleteLoop_eq_filter : ∀ (sel : List String) (c : Corpus),
    deleteLoop c sel = c.filter (fun kv => !(sel.contains kv.1)) := by
  intro sel
  induction sel with
  | nil =>
    intro c
    simp [deleteLoop]
  | cons fn rest ih =>
    intro c
    show deleteLoop (removeKey c fn) rest = _
    rw [ih, removeKey, List.filter_filter]
    apply List.filter_congr
    intro kv _
    rw [List.contains_cons]
    cases hx : kv.1 == fn <;> cases hy : rest.contains kv.1 <;> rfl

/-- C10: a confirmed removal of a non-empty selection filters the
selected identifiers out of the corpus and unconditionally empties the
stored search-result list — including records that referenced files not
among the removed identifiers. -/
theorem removal_clears_results : ∀ (st : AppState) (sel : List String),
    sel ≠ [] →
    (delete_selected st sel true).search_results = [] ∧
    (delete_selected st sel true).subtitle_data =
      st.subtitle_data.filter (fun kv => !(sel.contains kv.1)) := by
  intro st sel h
  have hne : sel.isEmpty = false := by
    cases sel
    · exact absurd rfl h
    · rfl
  unfold delete_selected
  rw [hne]
  exact ⟨rfl, deleteLoop_eq_filter sel st.subtitle_data⟩

/-- Witness for `removal_clears_results`: the stored record references
`b.srt`, which is not removed, yet the result set is cleared. -/
theorem removal_clears_results_witness :
    (delete_selected
        ⟨[("a.srt", [("00:00:01,000", "Hello there")]),
          ("b.srt", [("00:00:05,000", "Bye now")])],
         [("b.srt", "00:00:05,000", "Bye now")]⟩ ["a.srt"] true).search_results = [] ∧
    (delete_selected
        ⟨[("a.srt", [("00:00:01,000", "Hello there")]),
          ("b.srt", [("00:00:05,000", "Bye now")])],
         [("b.srt", "00:00:05,000", "Bye now")]⟩ ["a.srt"] true).subtitle_data =
      [("a.srt", [("00:00:01,000", "Hello there")]),
       ("b.srt", [("00:00:05,000", "Bye now")])].filter
        (fun kv => !(["a.srt"].contains kv.1)) :=
  removal_clears_results
    ⟨[("a.srt", [("00:00:01,000", "Hello there")]),
      ("b.srt", [("00:00:05,000", "Bye now")])],
     [("b.srt", "00:00:05,000", "Bye now")]⟩ ["a.srt"] (by decide)

/-! ### The corpus invariant -/

/-- Well-formedness of a stored entry: comma-normalized `HH:MM:SS,mmm`
timestamp and non-empty text that is an output of the block cleanup. -/
def entryOK (e : Entry) : Prop :=
  tsCommaB e.1.data = true ∧ e.2 ≠ "" ∧ ∃ raw : String, e.2 = cleanBlockS raw

/-- Well-formedness of a stored file: a non-empty entry sequence of
well-formed entries. -/
def fileOK (f : String × List Entry) : Prop :=
  f.2 ≠ [] ∧ ∀ e ∈ f.2, entryOK e

def corpusOK (c : Corpus) : Prop := ∀ f ∈ c, fileOK f

theorem select_files_ok :
    ∀ (fs : List (String × Option String)) (c : Corpus),
      corpusOK c → corpusOK (select_files c fs).1 := by
  intro fs
  induction fs with
  | nil => intro c h; exact h
  | cons p rest ih =>
    intro c h
    obtain ⟨fn, dec⟩ := p
    by_cases hk : hasKey c fn = true
    · have e : select_files c ((fn, dec) :: rest) = select_files c rest := by
        simp [select_files, hk]
      rw [e]
      exact ih c h
    · have hk' : hasKey c fn = false := by
        cases hx : hasKey c fn
        · rfl
        · exact absurd hx hk
      cases dec with
      | none =>
        have e : (select_files c ((fn, none) :: rest)).1 = (select_files c rest).1 := by
          simp [select_files, hk', load_srt_file]
        rw [e]
        exact ih c h
      | some content =>
        cases hp : parseSRT content with
        | nil =>
          have e : (select_files c ((fn, some content) :: rest)).1 =
              (select_files c rest).1 := by
            simp [select_files, hk', load_srt_file, hp]
          rw [e]
          exact ih c h
        | cons en es =>
          have e : select_files c ((fn, some content) :: rest) =
              select_files (c ++ [(fn, en :: es)]) rest := by
            simp [select_files, hk', load_srt_file, hp, dictInsert_new hk']
          rw [e]
          apply ih
          intro f hf
          rcases List.mem_append.mp hf with hf | hf
          · exact h f hf
          · have hfe : f = (fn, en :: es) := by simpa using hf
            subst hfe
            refine ⟨by simp, ?_⟩
            intro e' he'
            have hmem : e' ∈ parseSRT content := by
              rw [hp]
              exact he'
            exact parseSRT_entry hmem

/-- C9: every corpus operation — batch load, confirmed removal, clear —
preserves the invariant that each stored file has a non-empty entry
sequence whose entries carry `HH:MM:SS,mmm` comma-normalized timestamps
and non-empty cleaned text. -/
theorem corpus_invariant :
    (∀ (c : Corpus) (fs : List (String × Option String)),
      corpusOK c → corpusOK (select_files c fs).1) ∧
    (∀ (st : AppState) (sel : List String) (confirmed : Bool),
      corpusOK st.subtitle_data →
      corpusOK (delete_selected st sel confirmed).subtitle_data) ∧
    (∀ st : AppState, corpusOK (clear_all st).subtitle_data) := by
  refine ⟨fun c fs h => select_files_ok fs c h, ?_, ?_⟩
  · intro st sel confirmed h
    unfold delete_selected
    split
    · exact h
    · split
      · show corpusOK (deleteLoop st.subtitle_data sel)
        rw [deleteLoop_eq_filter]
        intro f hf
        exact h f (List.mem_of_mem_filter hf)
      · exact h
  · intro st f hf
    cases hf

/-- Witness for `corpus_invariant`. -/
theorem corpus_invariant_witness :
    corpusOK (select_files []
      [("a.srt", some "00:00:01,000 --> 00:00:02,000\nHello there\n\n")]).1 ∧
    corpusOK (delete_selected ⟨[], [("x", "y", "z")]⟩ ["a.srt"] true).subtitle_data ∧
    corpusOK (clear_all ⟨[], []⟩).subtitle_data :=
  ⟨corpus_invariant.1 [] _ (fun f hf => absurd hf (List.not_mem_nil f)),
   corpus_invariant.2.1 ⟨[], [("x", "y", "z")]⟩ ["a.srt"] true
     (fun f hf => absurd hf (List.not_mem_nil f)),
   corpus_invariant.2.2 ⟨[], []⟩⟩

/-! ### Search over an empty corpus -/

/-- C5 (amended): a valid (non-blank after stripping) query over an
empty corpus does not run a search at all — the call is rejected with
the "please add SRT files first" warning outcome, no match records are
produced, and the previously stored result set is left untouched. -/
theorem empty_corpus_search :
    ∀ (q : String) (rs : List MatchRecord),
      (stripEnds q.data).isEmpty = false →
      searchOp [] q = SearchOutcome.emptyCorpus ∧
      searchApp ⟨[], rs⟩ q = ⟨[], rs⟩ := by
  intro q rs h
  have h1 : searchOp [] q = .emptyCorpus := by
    simp only [searchOp]
    rw [h]
    rfl
  refine ⟨h1, ?_⟩
  unfold searchApp
  rw [h1]

/-- Witness for `empty_corpus_search`. -/
theorem empty_corpus_search_witness :
    searchOp [] "hello" = SearchOutcome.emptyCorpus ∧
    searchApp ⟨[], [("a.srt", "00:00:01,000", "Hello there")]⟩ "hello" =
      ⟨[], [("a.srt", "00:00:01,000", "Hello there")]⟩ :=
  empty_corpus_search "hello" [("a.srt", "00:00:01,000", "Hello there")] (by decide)

/-- C5 (counterexample): on an empty corpus the `search` entry point does
not return an empty result sequence — it aborts with the warning outcome
before any search runs. -/
theorem empty_corpus_search_counterexample :
    searchOp [] "hello" = SearchOutcome.emptyCorpus ∧
    searchOp [] "hello" ≠ SearchOutcome.results [] := by
  constructor
  · rfl
  · decide

/-! ### Translator sentinels -/

/-- A network whose provider calls all succeed. -/
def netOK : Net :=
  ⟨fun _ _ _ => .ok "好", fun _ _ => .ok "好", fun _ _ => .ok "好"⟩

/-- A network whose provider calls all fail at the transport level. -/
def netErr : Net :=
  ⟨fun _ _ _ => .error (.connErr "x"), fun _ _ => .error (.connErr "x"),
   fun _ _ => .error (.connErr "x")⟩

/-- C6 (amended): `translate` is a total function into sentinel strings:
with a falsy provider selection it returns the "configure a service
first" sentinel (this check precedes the blank-input check, so a blank
input with no provider gets the no-provider sentinel); with a provider
selected, blank input returns the "nothing to translate" sentinel; blank
input never depends on the network; and a selected provider with missing
mandatory credentials returns its "not configured" sentinel. -/
theorem translate_total_sentinels :
    ∀ (cfg : Config) (net net' : Net) (text : String),
      (serviceFalsy cfg.current_service = true →
        translate cfg net text = "[请先在设置中选择并配置翻译服务]") ∧
      (serviceFalsy cfg.current_service = false → isBlankText text = true →
        translate cfg net text = "[无需翻译的空文本]") ∧
      (isBlankText text = true →
        translate cfg net text = translate cfg net' text) ∧
      (cfg.current_service = some "Azure" → isBlankText text = false →
        (cfg.azure_key.isEmpty || cfg.azure_region.isEmpty) = true →
        translate cfg net text = "[Azure Key/Region 未配置]") ∧
      (cfg.current_service = some "Google" → isBlankText text = false →
        cfg.google_key.isEmpty = true →
        translate cfg net text = "[Google API Key 未配置]") ∧
      (cfg.current_service = some "DeepL" → isBlankText text = false →
        cfg.deepl_key.isEmpty = true →
        translate cfg net text = "[DeepL Key 未配置]") := by
  intro cfg net net' text
  refine ⟨?_, ?_, ?_, ?_, ?_, ?_⟩
  · intro h
    simp [translate, h]
  · intro h hb
    simp [translate, h, hb]
  · intro hb
    cases hs : serviceFalsy cfg.current_service
    · simp [translate, hs, hb]
    · simp [translate, hs]
  · intro hsvc hb hkeys
    have hf : serviceFalsy cfg.current_service = false := by
      rw [hsvc]
      decide
    simp [translate, hf, hb, hsvc, hkeys]
    decide
  · intro hsvc hb hkey
    have hf : serviceFalsy cfg.current_service = false := by
      rw [hsvc]
      decide
    have hne : ((some "Google" : Option String) == some "Azure") = false := by decide
    simp [translate, hf, hb, hsvc, hne, hkey]
    decide
  · intro hsvc hb hkey
    have hf : serviceFalsy cfg.current_service = false := by
      rw [hsvc]
      decide
    have hne1 : ((some "DeepL" : Option String) == some "Azure") = false := by decide
    have hne2 : ((some "DeepL" : Option String) == some "Google") = false := by decide
    simp [translate, hf, hb, hsvc, hne1, hne2, hkey]
    decide

/-- Witness for `translate_total_sentinels`. -/
theorem translate_total_sentinels_witness :
    translate ⟨some "Azure", "", "", "", ""⟩ netOK "hi" = "[Azure Key/Region 未配置]" ∧
    translate ⟨some "DeepL", "", "", "", ""⟩ netOK " " = "[无需翻译的空文本]" ∧
    translate ⟨some "Azure", "k", "r", "", ""⟩ netOK "" =
      translate ⟨some "Azure", "k", "r", "", ""⟩ netErr "" :=
  ⟨(translate_total_sentinels ⟨some "Azure", "", "", "", ""⟩ netOK netOK "hi").2.2.2.1
      rfl (by decide) (by decide),
   (translate_total_sentinels ⟨some "DeepL", "", "", "", ""⟩ netOK netOK " ").2.1
      (by decide) (by decide),
   (translate_total_sentinels ⟨some "Azure", "k", "r", "", ""⟩ netOK netErr "").2.2.1
      (by decide)⟩

/-- C6 (counterexample): with no provider selected, a blank input does
not short-circuit to the "nothing to translate" sentinel — the
no-provider check runs first and its sentinel is returned instead. -/
theorem translate_blank_counterexample :
    translate ⟨none, "", "", "", ""⟩ netOK "" = "[请先在设置中选择并配置翻译服务]" ∧
    ("[请先在设置中选择并配置翻译服务]" : String) ≠ "[无需翻译的空文本]" := by
  constructor
  · rfl
  · decide

end SubtitleSearch
